import Mathlib

/-!
Verification of the flight-api fetch/aggregate/cache pipeline (src/app/main.py).

The development shallowly embeds:
  * the JSON trees the upstream provider returns (`Json`),
  * the aggregation in `fetch_flight_data` (lines 107-134 of main.py),
  * the `cachetools.TTLCache` used as `flights_cache` (line 51),
  * the orchestrating route handler `get_flights` (lines 154-205).
-/

namespace FlightApi

/-- A JSON-like value, as produced by `response.json()`.  Object fields keep
their textual keys; Python `dict`s preserve insertion order, which the field
list models.  Numbers are modelled as integers: no claim performs numeric
arithmetic on tree values, and Python numeric equality restricted to the
values appearing as dictionary keys is integer equality. -/
inductive Json where
  | null : Json
  | bool (b : Bool) : Json
  | num (n : Int) : Json
  | str (s : String) : Json
  | arr (elems : List Json) : Json
  | obj (fields : List (String × Json)) : Json

/-- Python truthiness (`if country_name:`) of a JSON value. -/
def truthy : Json → Bool
  | .null => false
  | .bool b => b
  | .num n => !(n == 0)
  | .str s => !(s == "")
  | .arr xs => !xs.isEmpty
  | .obj fs => !fs.isEmpty

/-- Whether a JSON value is hashable in Python (usable as a `dict` key).
Lists and dicts are unhashable; using one as a key raises `TypeError`. -/
def hashable : Json → Bool
  | .arr _ => false
  | .obj _ => false
  | _ => true

/-- Python `==` on the JSON values that can appear as dictionary keys.
`True == 1` and `False == 0` hold across `bool`/`int`; all other cross-type
comparisons of hashable JSON values are `False`.  (Lists and dicts never
reach a key comparison: Python raises `TypeError` on hashing them first,
which the embedding models separately via `hashable`.) -/
def pyEq : Json → Json → Bool
  | .null, .null => true
  | .bool a, .bool b => a == b
  | .bool a, .num n => (if a then (1 : Int) else 0) == n
  | .num n, .bool b => n == (if b then (1 : Int) else 0)
  | .num a, .num b => a == b
  | .str a, .str b => a == b
  | _, _ => false

/-- First binding of a key in an object's field list (Python dicts have
unique keys; for the model, the first binding wins). -/
def lookupKey : List (String × Json) → String → Option Json
  | [], _ => none
  | p :: ps, k => if p.1 == k then some p.2 else lookupKey ps k

/-- Errors that can escape the body of `fetch_flight_data` (besides the
transport-level ones modelled in `FetchOutcome`):  Python `AttributeError`
(calling `.get` on a non-dict), `TypeError` (iterating a non-iterable or
hashing an unhashable key), and the `ValueError` raised on line 128 when no
country was counted. -/
inductive AggError where
  | attributeError : AggError
  | typeError : AggError
  | noDataFound (airport_code : String) : AggError
  deriving DecidableEq, Repr

/-- Python `x.get(key, default)`: on a dict, the binding or the default; on
anything else, `AttributeError`. -/
def dictGet (j : Json) (key : String) (dflt : Json) : Except AggError Json :=
  match j with
  | .obj fields => .ok ((lookupKey fields key).getD dflt)
  | _ => .error .attributeError

/-- One chained `.get` step: propagate an earlier error, else `dictGet`. -/
def step (x : Except AggError Json) (key : String) (dflt : Json) : Except AggError Json :=
  match x with
  | .error e => .error e
  | .ok j => dictGet j key dflt

/-- main.py lines 110-114: `item.get('airport', {}).get('pluginData', {})
.get('schedule', {}).get('arrivals', {}).get('data', [])`. -/
def getFlightsData (item : Json) : Except AggError Json :=
  step (step (step (step (dictGet item "airport" (.obj []))
    "pluginData" (.obj [])) "schedule" (.obj [])) "arrivals" (.obj [])) "data" (.arr [])

/-- main.py lines 117-122: `flight.get('flight', {}).get('airport', {})
.get('origin', {}).get('position', {}).get('country', {}).get('name')`
(the last `.get` has default `None`). -/
def flightName (flight : Json) : Except AggError Json :=
  step (step (step (step (step (dictGet flight "flight" (.obj []))
    "airport" (.obj [])) "origin" (.obj [])) "position" (.obj [])) "country" (.obj [])) "name" .null

/-- Python `for flight in flights_data:` — iteration over a JSON value.
Lists yield elements, strings yield 1-character strings, dicts yield their
keys; other values raise `TypeError`. -/
def pyIter (j : Json) : Except AggError (List Json) :=
  match j with
  | .arr xs => .ok xs
  | .str s => .ok (s.data.map (fun c => .str (String.mk [c])))
  | .obj fs => .ok (fs.map (fun p => .str p.1))
  | _ => .error .typeError

/-- `country_flights[country_name] += 1` on the insertion-ordered
`defaultdict(int)`: bump the first `pyEq`-matching key (keeping the stored
key object and its position), else append a fresh entry with count 1. -/
def bump : List (Json × Nat) → Json → List (Json × Nat)
  | [], n => [(n, 1)]
  | p :: m, n => if pyEq p.1 n then (p.1, p.2 + 1) :: m else p :: bump m n

/-- main.py lines 116-125, loop body: resolve the country name; a truthy
name increments its counter (`TypeError` if the name is unhashable), a
falsy one is skipped. -/
def processFlight (m : List (Json × Nat)) (flight : Json) :
    Except AggError (List (Json × Nat)) :=
  match flightName flight with
  | .error e => .error e
  | .ok name =>
    if truthy name then
      if hashable name then .ok (bump m name) else .error .typeError
    else .ok m

/-- main.py lines 109-125, outer loop body: resolve `flights_data` for one
schedule element and fold the arrival records into the count map. -/
def processItem (m : List (Json × Nat)) (item : Json) :
    Except AggError (List (Json × Nat)) :=
  match getFlightsData item with
  | .error e => .error e
  | .ok fd =>
    match pyIter fd with
    | .error e => .error e
    | .ok flights => flights.foldlM processFlight m

/-- main.py lines 107-125: build `country_flights`.  A non-list response
skips the loop entirely (`isinstance(data, list)`), leaving the map empty. -/
def countCountries (data : Json) : Except AggError (List (Json × Nat)) :=
  match data with
  | .arr items => items.foldlM processItem []
  | _ => .ok []

/-- Stable insertion of one entry into a count-descending list: the entry
goes after every earlier entry with a strictly larger count and before the
first entry with a smaller-or-equal count.  Elements already in the list
came later in the original order, so this realizes Python's stable sort. -/
def insertDesc (x : Json × Nat) : List (Json × Nat) → List (Json × Nat)
  | [] => [x]
  | y :: ys => if x.2 < y.2 then y :: insertDesc x ys else x :: y :: ys

/-- Python `sorted(country_flights.items(), key=lambda x: x[1],
reverse=True)`: a stable sort by count, descending (main.py lines 130-134).
`sorted`'s contract is exactly "stable sort"; insertion sort realizes it. -/
def pySortDesc : List (Json × Nat) → List (Json × Nat)
  | [] => []
  | x :: xs => insertDesc x (pySortDesc xs)

/-- main.py lines 107-134, the aggregation body of `fetch_flight_data`
applied to an already-parsed response: count arrivals per country, fail
with the line-128 `ValueError` (`NoDataFound`) when nothing was counted,
else return the count pairs sorted by count descending. -/
def fetch_flight_data (data : Json) (airport_code : String) :
    Except AggError (List (Json × Nat)) :=
  match countCountries data with
  | .error e => .error e
  | .ok m => if m.isEmpty then .error (.noDataFound airport_code) else .ok (pySortDesc m)

/-! ## The TTL cache (`flights_cache`, main.py line 51)

`flights_cache = TTLCache(maxsize=settings.CACHE_MAXSIZE, ttl=settings.CACHE_TTL)`
from `cachetools`.  The state is the list of live-or-lazily-expired entries
in least-recently-used-first order (the `OrderedDict` of links): the head
is the least recently used entry, the tail the most recently used.  Each
entry carries its absolute expiry instant `settime + ttl`. -/

/-- State of a `cachetools.TTLCache`: capacity, TTL, and entries as
`(key, value, expires)` in LRU order (head = least recently used). -/
structure TTLCache (α : Type) where
  maxsize : Nat
  ttl : Nat
  entries : List (String × α × Nat)

namespace TTLCache

variable {α : Type}

/-- `TTLCache.expire(time)`: drop every entry whose expiry instant has been
reached (`cachetools` keeps an entry alive while `time < link.expires`). -/
def expire (now : Nat) (es : List (String × α × Nat)) : List (String × α × Nat) :=
  es.filter (fun e => now < e.2.2)

/-- `TTLCache.__contains__`: the key has a link and is not yet expired.
Does not touch the LRU order. -/
def containsKey (s : TTLCache α) (now : Nat) (k : String) : Bool :=
  match s.entries.find? (fun e => e.1 == k) with
  | none => false
  | some e => now < e.2.2

/-- The eviction loop of `Cache.__setitem__` for a new key of size 1:
`while currsize + 1 > maxsize: popitem()`, where `TTLCache.popitem`
removes the least recently used (front) link.  (With `maxsize = 0` the real
code raises `KeyError` from an empty cache; the deployed configuration is
`CACHE_MAXSIZE = 100`, and every theorem below assumes `1 ≤ maxsize`.) -/
def evictLoop (maxsize : Nat) : List (String × α × Nat) → List (String × α × Nat)
  | [] => []
  | e :: es => if maxsize < es.length + 2 then evictLoop maxsize es else e :: es

/-- `TTLCache.__setitem__(key, value)`: sweep expired entries, evict
least-recently-used entries while a new key would overflow the capacity,
then store the key at the most-recently-used end with a fresh expiry. -/
def setItem (s : TTLCache α) (now : Nat) (k : String) (v : α) : TTLCache α :=
  let es := expire now s.entries
  let es := if es.any (fun e => e.1 == k) then es else evictLoop s.maxsize es
  { s with entries := es.filter (fun e => e.1 != k) ++ [(k, v, now + s.ttl)] }

/-- `TTLCache.__getitem__(key)`: looking up a linked key moves it to the
most-recently-used end (`__getlink` does `move_to_end` before the expiry
test); an expired or absent key is a miss (`KeyError` in Python, `none`
here), with the expired entry left for the next lazy sweep. -/
def getItem (s : TTLCache α) (now : Nat) (k : String) : Option α × TTLCache α :=
  match s.entries.find? (fun e => e.1 == k) with
  | none => (none, s)
  | some e =>
    let s' := { s with entries := s.entries.filter (fun e2 => e2.1 != k) ++ [e] }
    if now < e.2.2 then (some e.2.1, s') else (none, s')

end TTLCache

/-! ## The orchestrator (`get_flights`, main.py lines 154-205) -/

/-- Outcome of the upstream HTTP exchange in `fetch_flight_data` before the
aggregation loop runs: the awaited call timed out, failed at transport
level or returned a non-2xx status (`aiohttp.ClientError`), produced an
unparseable body, or yielded a parsed JSON tree. -/
inductive FetchOutcome where
  | timeout : FetchOutcome
  | clientError : FetchOutcome
  | malformed : FetchOutcome
  | ok (data : Json) : FetchOutcome

/-- The distinguishable error conditions `get_flights` can report (each
rendered into the error template with its own message). -/
inductive OrchError where
  | invalidCode : OrchError
  | noData (airport_code : String) : OrchError
  | timeoutErr : OrchError
  | upstreamErr : OrchError
  | malformedErr : OrchError
  | attrErr : OrchError
  | typeErr : OrchError
  | cacheKeyErr : OrchError
  deriving DecidableEq, Repr

/-- How an error escaping `fetch_flight_data` surfaces from `get_flights`. -/
def aggErrToOrch : AggError → OrchError
  | .attributeError => .attrErr
  | .typeError => .typeErr
  | .noDataFound c => .noData c

/-- What `get_flights` renders: a ranked flights list or an error page. -/
inductive OrchResult where
  | flights (r : List (Json × Nat)) : OrchResult
  | err (e : OrchError) : OrchResult

/-- Python `airport_code.upper()` (character-wise uppercasing; airport
codes are ASCII). -/
def pyUpper (s : String) : String := String.mk (s.data.map Char.toUpper)

/-- main.py lines 154-205, `get_flights`: validate the 3-character code,
normalize to uppercase, serve from `flights_cache` on a hit, otherwise run
the fetch + aggregation and cache only a successful result.  Returns the
rendered outcome, the cache state afterwards, and the number of upstream
calls issued (0 or 1). -/
def get_flights (airport_code : String) (cache : TTLCache (List (Json × Nat)))
    (now : Nat) (upstream : FetchOutcome) :
    OrchResult × TTLCache (List (Json × Nat)) × Nat :=
  if airport_code.length != 3 then (.err .invalidCode, cache, 0)
  else
    if cache.containsKey now ("flights_" ++ pyUpper airport_code) then
      match cache.getItem now ("flights_" ++ pyUpper airport_code) with
      | (some v, cache') => (.flights v, cache', 0)
      | (none, cache') => (.err .cacheKeyErr, cache', 0)
    else
      match upstream with
      | .timeout => (.err .timeoutErr, cache, 1)
      | .clientError => (.err .upstreamErr, cache, 1)
      | .malformed => (.err .malformedErr, cache, 1)
      | .ok data =>
        match fetch_flight_data data (pyUpper airport_code) with
        | .ok r => (.flights r, cache.setItem now ("flights_" ++ pyUpper airport_code) r, 1)
        | .error e => (.err (aggErrToOrch e), cache, 1)

/-! ## Specification-side views of the aggregation

These definitions re-express the traversal as "collect the resolved country
names, then count": they are proven equivalent to the fold above and used
to state the claims. -/

/-- The contribution of one arrival record: its truthy, hashable country
name, `none` when the name is falsy, and the error the loop body would
raise otherwise. -/
def nameContrib (flight : Json) : Except AggError (Option Json) :=
  match flightName flight with
  | .error e => .error e
  | .ok n =>
    if truthy n then (if hashable n then .ok (some n) else .error .typeError)
    else .ok none

/-- The counted country names of a record list, in traversal order. -/
def contribsOf : List Json → Except AggError (List Json)
  | [] => .ok []
  | f :: fs =>
    match nameContrib f with
    | .error e => .error e
    | .ok c =>
      match contribsOf fs with
      | .error e => .error e
      | .ok cs => .ok (match c with | some n => n :: cs | none => cs)

/-- The arrival-record list of one schedule element. -/
def itemFlights (item : Json) : Except AggError (List Json) :=
  match getFlightsData item with
  | .error e => .error e
  | .ok fd => pyIter fd

/-- The counted country names contributed by one schedule element. -/
def itemContribs (item : Json) : Except AggError (List Json) :=
  match itemFlights item with
  | .error e => .error e
  | .ok fs => contribsOf fs

/-- Counted country names of a list of schedule elements, concatenated. -/
def itemsContribs : List Json → Except AggError (List Json)
  | [] => .ok []
  | it :: its =>
    match itemContribs it with
    | .error e => .error e
    | .ok ns =>
      match itemsContribs its with
      | .error e => .error e
      | .ok rest => .ok (ns ++ rest)

/-- All counted country names of a raw response, in traversal order. -/
def allContribs (data : Json) : Except AggError (List Json) :=
  match data with
  | .arr items => itemsContribs items
  | _ => .ok []

/-- Arrival records of a list of schedule elements, concatenated. -/
def itemsRecords : List Json → Except AggError (List Json)
  | [] => .ok []
  | it :: its =>
    match itemFlights it with
    | .error e => .error e
    | .ok fs =>
      match itemsRecords its with
      | .error e => .error e
      | .ok rest => .ok (fs ++ rest)

/-- All arrival records of a raw response, in traversal order.  A non-list
response has zero records. -/
def allRecords (data : Json) : Except AggError (List Json) :=
  match data with
  | .arr items => itemsRecords items
  | _ => .ok []

/-- Whether an arrival record's nested name path resolves to the truthy
(present and non-empty) country value `c`. -/
def resolvesTo (flight : Json) (c : Json) : Bool :=
  match flightName flight with
  | .ok n => truthy n && pyEq n c
  | .error _ => false

/-- Replaying the counting loop over a bare name list. -/
def buildCounts (ns : List Json) : List (Json × Nat) := ns.foldl bump []

/-- Total weight a key holds in a count map, summed over `pyEq`-equal keys
(on maps with pairwise distinct keys this is just the key's count). -/
def keyCount (m : List (Json × Nat)) (k : Json) : Nat :=
  ((m.filter (fun p => pyEq p.1 k)).map Prod.snd).sum

/-- Sum of all counts in a count map. -/
def sumCounts (m : List (Json × Nat)) : Nat := (m.map Prod.snd).sum

/-- The distinct counted names in order of first appearance. -/
def firstSeen (ns : List Json) : List Json :=
  ns.foldl (fun acc n => if acc.any (fun k => pyEq k n) then acc else acc ++ [n]) []

/-- Canonical representative of a hashable JSON value under Python `==`
(`True == 1`, `False == 0`). -/
def canon : Json → Json
  | .bool b => .num (if b then 1 else 0)
  | x => x

/-- Invariant of the count maps the loop builds: keys are pairwise
distinct under Python `==` and all hashable. -/
def goodKeys (ks : List Json) : Prop :=
  ks.Pairwise (fun a b => pyEq a b = false) ∧ ∀ k ∈ ks, hashable k = true

/-- An error raised by the defensive traversal itself (never the
`noDataFound` raised by the emptiness check). -/
def structuralErr (e : AggError) : Prop :=
  e = .attributeError ∨ e = .typeError

/-- Descend through object nodes with `{}` defaults; `none` as soon as a
present node is not an object. -/
def chainVal : Json → List String → Option Json
  | j, [] => some j
  | .obj fields, k :: ks => chainVal ((lookupKey fields k).getD (.obj [])) ks
  | _, _ :: _ => none

/-- Iterated `.get(k, {})` steps. -/
def stepsObj (x : Except AggError Json) : List String → Except AggError Json
  | [] => x
  | k :: ks => stepsObj (step x k (.obj [])) ks

/-- A record is benign when every present node along
`flight → airport → origin → position → country` is an object and the
`name` leaf, if truthy, is hashable.  Keys may be missing at any depth. -/
def benignFlight (f : Json) : Bool :=
  match chainVal f ["flight", "airport", "origin", "position", "country"] with
  | some (.obj g) =>
    !(truthy ((lookupKey g "name").getD .null)
        && !(hashable ((lookupKey g "name").getD .null)))
  | _ => false

/-- A schedule element is benign when every present node along
`airport → pluginData → schedule → arrivals` is an object, the `data`
value, if present, is a list, and all its records are benign. -/
def benignItem (item : Json) : Bool :=
  match chainVal item ["airport", "pluginData", "schedule", "arrivals"] with
  | some (.obj e) =>
    match (lookupKey e "data").getD (.arr []) with
    | .arr fs => fs.all benignFlight
    | _ => false
  | _ => false

/-- A raw response is benign when it is either not a list (zero records) or
a list of benign schedule elements. -/
def benignData (data : Json) : Bool :=
  match data with
  | .arr items => items.all benignItem
  | _ => true

/-- Which error, if any, the fetch + aggregation stage of a lookup fails
with, given the upstream outcome. -/
def fetchFailure (u : FetchOutcome) (code : String) : Option OrchError :=
  match u with
  | .timeout => some .timeoutErr
  | .clientError => some .upstreamErr
  | .malformed => some .malformedErr
  | .ok data =>
    match fetch_flight_data data code with
    | .ok _ => none
    | .error e => some (aggErrToOrch e)

/-- A concrete arrival record resolving to the given country name. -/
def sampleFlight (c : String) : Json :=
  .obj [("flight", .obj [("airport", .obj [("origin", .obj [("position",
    .obj [("country", .obj [("name", .str c)])])])])])]

/-- A concrete raw response: one airport element with three arrivals, two
from France and one from Spain. -/
def sampleData : Json :=
  .arr [.obj [("airport", .obj [("pluginData", .obj [("schedule", .obj [("arrivals",
    .obj [("data", .arr [sampleFlight "France", sampleFlight "Spain",
      sampleFlight "France"])])])])])]]

/-! ## Properties of `pyEq` -/

theorem pyEq_refl (a : Json) (h : hashable a = true) : pyEq a a = true := by
  cases a <;> simp_all [pyEq, hashable]

theorem pyEq_symm (a b : Json) : pyEq a b = pyEq b a := by
  cases a <;> cases b <;> simp [pyEq, beq_iff_eq, eq_comm]

theorem pyEq_hashable (a b : Json) (h : pyEq a b = true) :
    hashable a = true ∧ hashable b = true := by
  cases a <;> cases b <;> simp_all [pyEq, hashable]

theorem pyEq_iff_canon (a b : Json) (ha : hashable a = true) (hb : hashable b = true) :
    pyEq a b = true ↔ canon a = canon b := by
  cases a <;> cases b <;> simp_all [pyEq, canon, hashable, beq_iff_eq]
  rename_i x y
  cases x <;> cases y <;> simp

theorem pyEq_trans (a b c : Json) (hab : pyEq a b = true) (hbc : pyEq b c = true) :
    pyEq a c = true := by
  obtain ⟨ha, hb⟩ := pyEq_hashable a b hab
  obtain ⟨_, hc⟩ := pyEq_hashable b c hbc
  rw [pyEq_iff_canon a b ha hb] at hab
  rw [pyEq_iff_canon b c hb hc] at hbc
  rw [pyEq_iff_canon a c ha hc]
  exact hab.trans hbc

/-! ## The counting fold, re-expressed through collected names -/

theorem processFlight_eq (m : List (Json × Nat)) (f : Json) :
    processFlight m f =
      match nameContrib f with
      | .ok (some n) => .ok (bump m n)
      | .ok none => .ok m
      | .error e => .error e := by
  unfold processFlight nameContrib
  cases flightName f with
  | error e => rfl
  | ok n =>
    by_cases ht : truthy n = true <;> by_cases hh : hashable n = true <;>
      simp [ht, hh]

theorem bindOkE {β γ : Type} (v : β) (f : β → Except AggError γ) :
    (Except.ok v >>= f) = f v := rfl

theorem bindErrE {β γ : Type} (e : AggError) (f : β → Except AggError γ) :
    ((Except.error e : Except AggError β) >>= f) = Except.error e := rfl

theorem foldlM_cons {β : Type} (g : β → Json → Except AggError β) (m : β)
    (f : Json) (fs : List Json) :
    (f :: fs).foldlM g m = g m f >>= fun s => fs.foldlM g s := by
  simp [List.foldlM]

theorem foldlM_processFlight (fs : List Json) :
    ∀ m, fs.foldlM processFlight m =
      match contribsOf fs with
      | .ok ns => .ok (ns.foldl bump m)
      | .error e => .error e := by
  induction fs with
  | nil => intro m; rfl
  | cons f fs ih =>
    intro m
    rw [foldlM_cons, processFlight_eq]
    cases hc : nameContrib f with
    | error e => simp [contribsOf, hc, bindErrE]
    | ok c =>
      cases c with
      | some n =>
        simp only [bindOkE, ih (bump m n)]
        cases hcs : contribsOf fs <;> simp [contribsOf, hc, hcs]
      | none =>
        simp only [bindOkE, ih m]
        cases hcs : contribsOf fs <;> simp [contribsOf, hc, hcs]

theorem processItem_eq (m : List (Json × Nat)) (item : Json) :
    processItem m item =
      match itemContribs item with
      | .ok ns => .ok (ns.foldl bump m)
      | .error e => .error e := by
  cases hg : getFlightsData item with
  | error e => simp [processItem, itemContribs, itemFlights, hg]
  | ok fd =>
    cases hp : pyIter fd with
    | error e => simp [processItem, itemContribs, itemFlights, hg, hp]
    | ok flights =>
      simp only [processItem, itemContribs, itemFlights, hg, hp]
      exact foldlM_processFlight flights m

theorem foldlM_processItem (items : List Json) :
    ∀ m, items.foldlM processItem m =
      match itemsContribs items with
      | .ok ns => .ok (ns.foldl bump m)
      | .error e => .error e := by
  induction items with
  | nil => intro m; rfl
  | cons it its ih =>
    intro m
    rw [foldlM_cons, processItem_eq]
    cases hc : itemContribs it with
    | error e => simp [itemsContribs, hc, bindErrE]
    | ok ns =>
      simp only [bindOkE, ih (ns.foldl bump m)]
      cases hcs : itemsContribs its <;>
        simp [itemsContribs, hc, hcs, List.foldl_append]

theorem countCountries_eq (data : Json) :
    countCountries data =
      match allContribs data with
      | .ok ns => .ok (buildCounts ns)
      | .error e => .error e := by
  cases data <;> try rfl
  case arr items => exact foldlM_processItem items []

/-! ## Properties of the count map built by `bump` -/

theorem keyCount_nil (k : Json) : keyCount [] k = 0 := rfl

theorem keyCount_cons (p : Json × Nat) (m : List (Json × Nat)) (k : Json) :
    keyCount (p :: m) k = (if pyEq p.1 k then p.2 else 0) + keyCount m k := by
  by_cases h : pyEq p.1 k = true <;> simp [keyCount, List.filter_cons, h]

theorem keyCount_bump (m : List (Json × Nat)) (n k : Json) :
    keyCount (bump m n) k = keyCount m k + (if pyEq n k then 1 else 0) := by
  induction m with
  | nil =>
    by_cases h : pyEq n k = true <;> simp [bump, keyCount, List.filter_cons, h]
  | cons p m ih =>
    by_cases hpn : pyEq p.1 n = true
    · have hiff : pyEq p.1 k = pyEq n k := by
        by_cases hnk : pyEq n k = true
        · rw [hnk]; exact pyEq_trans p.1 n k hpn hnk
        · rw [eq_false_of_ne_true hnk]
          by_cases hpk : pyEq p.1 k = true
          · exact absurd (pyEq_trans n p.1 k (pyEq_symm p.1 n ▸ hpn) hpk)
              (by simp [hnk])
          · exact eq_false_of_ne_true hpk
      rw [show bump (p :: m) n = (p.1, p.2 + 1) :: m by simp [bump, hpn]]
      rw [keyCount_cons, keyCount_cons, hiff]
      by_cases hnk : pyEq n k = true <;> simp [hnk] <;> omega
    · rw [show bump (p :: m) n = p :: bump m n by
        simp [bump, eq_false_of_ne_true hpn]]
      rw [keyCount_cons, keyCount_cons, ih]
      omega

theorem keyCount_foldl_bump (ns : List Json) :
    ∀ m k, keyCount (ns.foldl bump m) k
      = keyCount m k + ns.countP (fun n => pyEq n k) := by
  induction ns with
  | nil => intro m k; simp
  | cons n ns ih =>
    intro m k
    rw [List.foldl_cons, ih (bump m n) k, keyCount_bump, List.countP_cons]
    by_cases h : pyEq n k = true <;> simp [h] <;> omega

theorem keyCount_eq_zero (m : List (Json × Nat)) (k : Json)
    (h : ∀ p ∈ m, pyEq p.1 k = false) : keyCount m k = 0 := by
  induction m with
  | nil => rfl
  | cons p m ih =>
    rw [keyCount_cons, h p (by simp)]
    simp [ih (fun q hq => h q (by simp [hq]))]

/-- The keys of a count map after one bump: unchanged when some key is
`pyEq` to the new name, otherwise the new name is appended. -/
theorem bump_fst (m : List (Json × Nat)) (n : Json) :
    (bump m n).map Prod.fst =
      if m.any (fun p => pyEq p.1 n) then m.map Prod.fst
      else m.map Prod.fst ++ [n] := by
  induction m with
  | nil => simp [bump]
  | cons p m ih =>
    by_cases h : pyEq p.1 n = true
    · simp [bump, h]
    · have h' : pyEq p.1 n = false := eq_false_of_ne_true h
      rw [show bump (p :: m) n = p :: bump m n by simp [bump, h']]
      by_cases hany : m.any (fun q => pyEq q.1 n) = true <;> simp [h', hany, ih]

theorem goodKeys_bump (m : List (Json × Nat)) (n : Json)
    (hm : goodKeys (m.map Prod.fst)) (hn : hashable n = true) :
    goodKeys ((bump m n).map Prod.fst) := by
  rw [bump_fst]
  by_cases hany : m.any (fun p => pyEq p.1 n) = true
  · simpa [hany] using hm
  · rw [if_neg hany]
    obtain ⟨hpair, hhash⟩ := hm
    have hnone : ∀ p ∈ m, pyEq p.1 n = false := by
      intro p hp
      by_contra hc
      exact hany (List.any_eq_true.mpr ⟨p, hp, by simpa using hc⟩)
    constructor
    · rw [List.pairwise_append]
      refine ⟨hpair, by simp, ?_⟩
      intro a ha b hb
      rw [List.mem_singleton] at hb
      subst hb
      obtain ⟨p, hp, rfl⟩ := List.mem_map.mp ha
      exact hnone p hp
    · intro k hk
      rcases List.mem_append.mp hk with h | h
      · exact hhash k h
      · rw [List.mem_singleton] at h; subst h; exact hn

theorem goodKeys_foldl_bump (ns : List Json) :
    ∀ m, goodKeys (m.map Prod.fst) → (∀ n ∈ ns, hashable n = true) →
      goodKeys ((ns.foldl bump m).map Prod.fst) := by
  induction ns with
  | nil => intro m hm _; simpa using hm
  | cons n ns ih =>
    intro m hm hns
    rw [List.foldl_cons]
    exact ih (bump m n) (goodKeys_bump m n hm (hns n (by simp)))
      (fun n' hn' => hns n' (by simp [hn']))

/-- In a well-formed count map, each entry's count is exactly the total
weight its key holds. -/
theorem mem_keyCount (m : List (Json × Nat)) (p : Json × Nat)
    (hp : p ∈ m) (hm : goodKeys (m.map Prod.fst)) : p.2 = keyCount m p.1 := by
  induction m with
  | nil => cases hp
  | cons q m ih =>
    obtain ⟨hpair, hhash⟩ := hm
    rw [List.map_cons, List.pairwise_cons] at hpair
    rcases List.mem_cons.mp hp with rfl | hmem
    · rw [keyCount_cons, if_pos (pyEq_refl p.1 (hhash p.1 (by simp)))]
      have hz : keyCount m p.1 = 0 := by
        apply keyCount_eq_zero
        intro q hq
        rw [pyEq_symm]
        exact hpair.1 q.1 (List.mem_map.mpr ⟨q, hq, rfl⟩)
      omega
    · have hqp : pyEq q.1 p.1 = false :=
        hpair.1 p.1 (List.mem_map.mpr ⟨p, hmem, rfl⟩)
      rw [keyCount_cons]
      simp only [hqp, Bool.false_eq_true, if_false, Nat.zero_add]
      exact ih hmem ⟨hpair.2, fun k hk => hhash k (by simp [hk])⟩

theorem sumCounts_bump (m : List (Json × Nat)) (n : Json) :
    sumCounts (bump m n) = sumCounts m + 1 := by
  induction m with
  | nil => rfl
  | cons p m ih =>
    by_cases h : pyEq p.1 n = true
    · simp [bump, h, sumCounts]; omega
    · rw [show bump (p :: m) n = p :: bump m n by simp [bump, eq_false_of_ne_true h]]
      simp [sumCounts] at ih ⊢
      omega

theorem sumCounts_foldl_bump (ns : List Json) :
    ∀ m, sumCounts (ns.foldl bump m) = sumCounts m + ns.length := by
  induction ns with
  | nil => intro m; simp
  | cons n ns ih =>
    intro m
    rw [List.foldl_cons, ih (bump m n), sumCounts_bump]
    simp only [List.length_cons]
    omega

theorem bump_pos (m : List (Json × Nat)) (n : Json)
    (hm : ∀ q ∈ m, 1 ≤ q.2) : ∀ p ∈ bump m n, 1 ≤ p.2 := by
  induction m with
  | nil =>
    intro p hp
    simp [bump] at hp
    subst hp
    simp
  | cons q m ih =>
    intro p hp
    by_cases h : pyEq q.1 n = true
    · rw [show bump (q :: m) n = (q.1, q.2 + 1) :: m by simp [bump, h]] at hp
      rcases List.mem_cons.mp hp with rfl | hmem
      · simp
      · exact hm p (by simp [hmem])
    · rw [show bump (q :: m) n = q :: bump m n by
        simp [bump, eq_false_of_ne_true h]] at hp
      rcases List.mem_cons.mp hp with rfl | hmem
      · exact hm p (by simp)
      · exact ih (fun q' hq' => hm q' (by simp [hq'])) p hmem

theorem foldl_bump_pos (ns : List Json) :
    ∀ m, (∀ q ∈ m, 1 ≤ q.2) → ∀ p ∈ ns.foldl bump m, 1 ≤ p.2 := by
  induction ns with
  | nil => intro m hm; simpa using hm
  | cons n ns ih =>
    intro m hm
    rw [List.foldl_cons]
    exact ih (bump m n) (bump_pos m n hm)

/-- The key order of the built count map is first-appearance order. -/
theorem foldl_bump_fst (ns : List Json) :
    ∀ m, (ns.foldl bump m).map Prod.fst =
      ns.foldl (fun acc n => if acc.any (fun k => pyEq k n) then acc else acc ++ [n])
        (m.map Prod.fst) := by
  induction ns with
  | nil => intro m; rfl
  | cons n ns ih =>
    intro m
    rw [List.foldl_cons, List.foldl_cons, ih (bump m n), bump_fst]
    have hgen : ∀ (l : List (Json × Nat)),
        (List.map Prod.fst l).any (fun k => pyEq k n)
          = l.any (fun p => pyEq p.1 n) := by
      intro l
      induction l with
      | nil => rfl
      | cons p l ihl => simp [ihl]
    rw [hgen m]

theorem buildCounts_fst (ns : List Json) :
    (buildCounts ns).map Prod.fst = firstSeen ns :=
  foldl_bump_fst ns []

/-! ## Counted names versus arrival records -/

theorem nameContrib_some (f n : Json) (h : nameContrib f = .ok (some n)) :
    flightName f = .ok n ∧ truthy n = true ∧ hashable n = true := by
  unfold nameContrib at h
  cases hf : flightName f with
  | error e => rw [hf] at h; cases h
  | ok n' =>
    rw [hf] at h
    by_cases ht : truthy n' = true
    · by_cases hh : hashable n' = true
      · simp [ht, hh] at h
        subst h
        exact ⟨rfl, ht, hh⟩
      · simp [ht, hh] at h
    · simp [ht] at h

theorem nameContrib_none (f : Json) (h : nameContrib f = .ok none) :
    ∃ n, flightName f = .ok n ∧ truthy n = false := by
  unfold nameContrib at h
  cases hf : flightName f with
  | error e => rw [hf] at h; cases h
  | ok n' =>
    rw [hf] at h
    by_cases ht : truthy n' = true
    · by_cases hh : hashable n' = true
      · simp [ht, hh] at h
      · simp [ht, hh] at h
    · exact ⟨n', rfl, eq_false_of_ne_true ht⟩

/-- Collected names versus the records they came from: counts per country,
total length, and well-formedness of the collected names. -/
theorem contribsOf_ok (fs : List Json) :
    ∀ ns, contribsOf fs = .ok ns →
      (∀ c, ns.countP (fun n => pyEq n c) = fs.countP (fun f => resolvesTo f c)) ∧
      ns.length ≤ fs.length ∧ (∀ n ∈ ns, truthy n = true ∧ hashable n = true) := by
  induction fs with
  | nil =>
    intro ns h
    cases h
    simp
  | cons f fs ih =>
    intro ns h
    unfold contribsOf at h
    cases hc : nameContrib f with
    | error e => rw [hc] at h; cases h
    | ok c =>
      rw [hc] at h
      cases hcs : contribsOf fs with
      | error e => rw [hcs] at h; cases h
      | ok cs =>
        rw [hcs] at h
        obtain ⟨hcount, hlen, hgood⟩ := ih cs hcs
        cases c with
        | some n =>
          cases h
          obtain ⟨hf, ht, hh⟩ := nameContrib_some f n hc
          refine ⟨?_, by simp; omega, ?_⟩
          · intro c
            rw [List.countP_cons, List.countP_cons, hcount c]
            have : resolvesTo f c = pyEq n c := by
              unfold resolvesTo
              rw [hf]
              simp [ht]
            simp [this]
          · intro n' hn'
            rcases List.mem_cons.mp hn' with rfl | hmem
            · exact ⟨ht, hh⟩
            · exact hgood n' hmem
        | none =>
          cases h
          obtain ⟨n, hf, ht⟩ := nameContrib_none f hc
          refine ⟨?_, by simp; omega, hgood⟩
          intro c
          rw [List.countP_cons, hcount c]
          have : resolvesTo f c = false := by
            unfold resolvesTo
            rw [hf]
            simp [ht]
          simp [this]

theorem itemContribs_ok (item : Json) (ns : List Json)
    (h : itemContribs item = .ok ns) :
    ∃ fs, itemFlights item = .ok fs ∧ contribsOf fs = .ok ns := by
  unfold itemContribs at h
  cases hf : itemFlights item with
  | error e => rw [hf] at h; cases h
  | ok fs => rw [hf] at h; exact ⟨fs, rfl, h⟩

theorem itemsContribs_ok (items : List Json) :
    ∀ ns, itemsContribs items = .ok ns →
      ∃ recs, itemsRecords items = .ok recs ∧
        (∀ c, ns.countP (fun n => pyEq n c)
            = recs.countP (fun f => resolvesTo f c)) ∧
        ns.length ≤ recs.length ∧
        (∀ n ∈ ns, truthy n = true ∧ hashable n = true) := by
  induction items with
  | nil =>
    intro ns h
    cases h
    exact ⟨[], rfl, by simp, by simp, by simp⟩
  | cons it its ih =>
    intro ns h
    unfold itemsContribs at h
    cases hc : itemContribs it with
    | error e => rw [hc] at h; cases h
    | ok ns1 =>
      rw [hc] at h
      cases hcs : itemsContribs its with
      | error e => rw [hcs] at h; cases h
      | ok rest =>
        rw [hcs] at h
        cases h
        obtain ⟨fs, hfs, hcof⟩ := itemContribs_ok it ns1 hc
        obtain ⟨hcount1, hlen1, hgood1⟩ := contribsOf_ok fs ns1 hcof
        obtain ⟨recs, hrecs, hcount2, hlen2, hgood2⟩ := ih rest hcs
        refine ⟨fs ++ recs, ?_, ?_, ?_, ?_⟩
        · unfold itemsRecords
          rw [hfs, hrecs]
        · intro c
          rw [List.countP_append, List.countP_append, hcount1 c, hcount2 c]
        · rw [List.length_append, List.length_append]
          omega
        · intro n hn
          rcases List.mem_append.mp hn with hmem | hmem
          · exact hgood1 n hmem
          · exact hgood2 n hmem

theorem allContribs_ok (data : Json) (ns : List Json)
    (h : allContribs data = .ok ns) :
    ∃ recs, allRecords data = .ok recs ∧
      (∀ c, ns.countP (fun n => pyEq n c)
          = recs.countP (fun f => resolvesTo f c)) ∧
      ns.length ≤ recs.length ∧
      (∀ n ∈ ns, truthy n = true ∧ hashable n = true) := by
  cases data with
  | arr items =>
    exact itemsContribs_ok items ns h
  | null | bool _ | num _ | str _ | obj _ =>
    cases h
    exact ⟨[], rfl, by simp, by simp, by simp⟩

/-! ## The stable descending sort -/

theorem insertDesc_perm (x : Json × Nat) (l : List (Json × Nat)) :
    List.Perm (insertDesc x l) (x :: l) := by
  induction l with
  | nil => rfl
  | cons y ys ih =>
    by_cases h : x.2 < y.2
    · rw [show insertDesc x (y :: ys) = y :: insertDesc x ys by simp [insertDesc, h]]
      exact (ih.cons y).trans (List.Perm.swap x y ys)
    · rw [show insertDesc x (y :: ys) = x :: y :: ys by simp [insertDesc, h]]

theorem pySortDesc_perm (l : List (Json × Nat)) :
    List.Perm (pySortDesc l) l := by
  induction l with
  | nil => rfl
  | cons x xs ih =>
    rw [pySortDesc]
    exact (insertDesc_perm x (pySortDesc xs)).trans (ih.cons x)

theorem insertDesc_sorted (x : Json × Nat) (l : List (Json × Nat))
    (hl : l.Pairwise (fun a b => b.2 ≤ a.2)) :
    (insertDesc x l).Pairwise (fun a b => b.2 ≤ a.2) := by
  induction l with
  | nil => simp [insertDesc]
  | cons y ys ih =>
    rw [List.pairwise_cons] at hl
    by_cases h : x.2 < y.2
    · rw [show insertDesc x (y :: ys) = y :: insertDesc x ys by simp [insertDesc, h]]
      rw [List.pairwise_cons]
      constructor
      · intro z hz
        rcases List.mem_cons.mp ((insertDesc_perm x ys).mem_iff.mp hz) with rfl | hmem
        · omega
        · exact hl.1 z hmem
      · exact ih hl.2
    · rw [show insertDesc x (y :: ys) = x :: y :: ys by simp [insertDesc, h]]
      rw [List.pairwise_cons]
      constructor
      · intro z hz
        rcases List.mem_cons.mp hz with rfl | hmem
        · omega
        · have := hl.1 z hmem
          omega
      · exact List.pairwise_cons.mpr hl

theorem pySortDesc_sorted (l : List (Json × Nat)) :
    (pySortDesc l).Pairwise (fun a b => b.2 ≤ a.2) := by
  induction l with
  | nil => simp [pySortDesc]
  | cons x xs ih => exact insertDesc_sorted x (pySortDesc xs) ih

/-- Stability, phrased through filtering: restricted to any fixed count,
the sort is the identity. -/
theorem insertDesc_filter (x : Json × Nat) (l : List (Json × Nat)) (c : Nat) :
    (insertDesc x l).filter (fun p => p.2 == c) =
      if x.2 == c then x :: l.filter (fun p => p.2 == c)
      else l.filter (fun p => p.2 == c) := by
  induction l with
  | nil => by_cases hxc : x.2 = c <;> simp [insertDesc, hxc]
  | cons y ys ih =>
    by_cases h : x.2 < y.2
    · rw [show insertDesc x (y :: ys) = y :: insertDesc x ys by simp [insertDesc, h]]
      by_cases hxc : x.2 = c
      · have hyc : ¬ y.2 = c := by omega
        simp [List.filter_cons, ih, hxc, hyc]
      · simp [List.filter_cons, ih, hxc]
    · rw [show insertDesc x (y :: ys) = x :: y :: ys by simp [insertDesc, h]]
      by_cases hxc : x.2 = c <;> simp [List.filter_cons, hxc]

theorem pySortDesc_filter (l : List (Json × Nat)) (c : Nat) :
    (pySortDesc l).filter (fun p => p.2 == c) = l.filter (fun p => p.2 == c) := by
  induction l with
  | nil => rfl
  | cons x xs ih =>
    rw [pySortDesc, insertDesc_filter]
    by_cases hxc : x.2 = c <;> simp [List.filter_cons, hxc, ih]

/-! ## Classification of traversal errors

`countCountries` can only fail with `attributeError` or `typeError`; the
`noDataFound` error is raised exclusively by the emptiness check in
`fetch_flight_data`. -/

theorem dictGet_error (j : Json) (k : String) (d : Json) (e : AggError)
    (h : dictGet j k d = .error e) : e = .attributeError := by
  cases j <;> simp [dictGet] at h <;> try exact h.symm
  all_goals cases h

theorem step_error (x : Except AggError Json) (k : String) (d : Json) (e : AggError)
    (h : step x k d = .error e) : x = .error e ∨ e = .attributeError := by
  cases x with
  | error e' =>
    left
    unfold step at h
    cases h
    rfl
  | ok j =>
    right
    exact dictGet_error j k d e h

theorem flightName_error (f : Json) (e : AggError)
    (h : flightName f = .error e) : e = .attributeError := by
  unfold flightName at h
  rcases step_error _ _ _ _ h with h1 | he
  · rcases step_error _ _ _ _ h1 with h2 | he
    · rcases step_error _ _ _ _ h2 with h3 | he
      · rcases step_error _ _ _ _ h3 with h4 | he
        · rcases step_error _ _ _ _ h4 with h5 | he
          · exact dictGet_error _ _ _ _ h5
          · exact he
        · exact he
      · exact he
    · exact he
  · exact he

theorem getFlightsData_error (item : Json) (e : AggError)
    (h : getFlightsData item = .error e) : e = .attributeError := by
  unfold getFlightsData at h
  rcases step_error _ _ _ _ h with h1 | he
  · rcases step_error _ _ _ _ h1 with h2 | he
    · rcases step_error _ _ _ _ h2 with h3 | he
      · rcases step_error _ _ _ _ h3 with h4 | he
        · exact dictGet_error _ _ _ _ h4
        · exact he
      · exact he
    · exact he
  · exact he

theorem pyIter_error (j : Json) (e : AggError)
    (h : pyIter j = .error e) : e = .typeError := by
  cases j <;> simp [pyIter] at h <;> try exact h.symm
  all_goals cases h

theorem nameContrib_error (f : Json) (e : AggError)
    (h : nameContrib f = .error e) : structuralErr e := by
  unfold nameContrib at h
  cases hf : flightName f with
  | error e' =>
    rw [hf] at h
    cases h
    exact Or.inl (flightName_error f e hf)
  | ok n =>
    rw [hf] at h
    by_cases ht : truthy n = true
    · by_cases hh : hashable n = true
      · simp [ht, hh] at h
      · simp [ht, hh] at h
        exact Or.inr h.symm
    · simp [ht] at h

theorem contribsOf_error (fs : List Json) :
    ∀ e, contribsOf fs = .error e → structuralErr e := by
  induction fs with
  | nil => intro e h; cases h
  | cons f fs ih =>
    intro e h
    unfold contribsOf at h
    cases hc : nameContrib f with
    | error e' =>
      rw [hc] at h
      cases h
      exact nameContrib_error f e hc
    | ok c =>
      rw [hc] at h
      cases hcs : contribsOf fs with
      | error e' =>
        rw [hcs] at h
        cases h
        exact ih e hcs
      | ok cs => rw [hcs] at h; cases h

theorem itemFlights_error (item : Json) (e : AggError)
    (h : itemFlights item = .error e) : structuralErr e := by
  unfold itemFlights at h
  cases hg : getFlightsData item with
  | error e' =>
    rw [hg] at h
    cases h
    exact Or.inl (getFlightsData_error item e hg)
  | ok fd =>
    rw [hg] at h
    exact Or.inr (pyIter_error fd e h)

theorem itemContribs_error (item : Json) (e : AggError)
    (h : itemContribs item = .error e) : structuralErr e := by
  unfold itemContribs at h
  cases hf : itemFlights item with
  | error e' =>
    rw [hf] at h
    cases h
    exact itemFlights_error item e hf
  | ok fs =>
    rw [hf] at h
    exact contribsOf_error fs e h

theorem itemsContribs_error (items : List Json) :
    ∀ e, itemsContribs items = .error e → structuralErr e := by
  induction items with
  | nil => intro e h; cases h
  | cons it its ih =>
    intro e h
    unfold itemsContribs at h
    cases hc : itemContribs it with
    | error e' =>
      rw [hc] at h
      cases h
      exact itemContribs_error it e hc
    | ok ns =>
      rw [hc] at h
      cases hcs : itemsContribs its with
      | error e' =>
        rw [hcs] at h
        cases h
        exact ih e hcs
      | ok rest => rw [hcs] at h; cases h

theorem countCountries_error (data : Json) (e : AggError)
    (h : countCountries data = .error e) : structuralErr e := by
  rw [countCountries_eq] at h
  cases hc : allContribs data with
  | error e' =>
    rw [hc] at h
    cases h
    cases data with
    | arr items => exact itemsContribs_error items e hc
    | null | bool _ | num _ | str _ | obj _ => cases hc
  | ok ns => rw [hc] at h; cases h

/-! ## Inverting `fetch_flight_data` -/

theorem buildCounts_eq_nil (ns : List Json) (h : buildCounts ns = []) : ns = [] := by
  have hsum : sumCounts (buildCounts ns) = ns.length := by
    have := sumCounts_foldl_bump ns []
    simpa [buildCounts, sumCounts] using this
  rw [h] at hsum
  simp [sumCounts] at hsum
  exact List.eq_nil_of_length_eq_zero hsum.symm

theorem fetch_ok_inv (data : Json) (code : String) (r : List (Json × Nat))
    (h : fetch_flight_data data code = .ok r) :
    ∃ ns, allContribs data = .ok ns ∧ ns ≠ [] ∧ r = pySortDesc (buildCounts ns) := by
  unfold fetch_flight_data at h
  cases hm : countCountries data with
  | error e => simp only [hm] at h; cases h
  | ok m =>
    simp only [hm] at h
    by_cases hemp : m.isEmpty = true
    · rw [if_pos hemp] at h; cases h
    · rw [if_neg hemp] at h
      cases h
      rw [countCountries_eq] at hm
      cases hc : allContribs data with
      | error e => rw [hc] at hm; cases hm
      | ok ns =>
        rw [hc] at hm
        cases hm
        refine ⟨ns, rfl, ?_, rfl⟩
        intro hnil
        subst hnil
        exact hemp (by simp [buildCounts])

theorem fetch_noData_iff (data : Json) (code : String) (c : String) :
    fetch_flight_data data code = .error (.noDataFound c) ↔
      countCountries data = .ok [] ∧ c = code := by
  constructor
  · intro h
    unfold fetch_flight_data at h
    cases hm : countCountries data with
    | error e =>
      simp only [hm] at h
      cases h
      rcases countCountries_error data _ hm with he | he <;> cases he
    | ok m =>
      simp only [hm] at h
      by_cases hemp : m.isEmpty = true
      · have hm0 : m = [] := by
          cases m
          · rfl
          · simp [List.isEmpty] at hemp
        subst hm0
        rw [if_pos hemp] at h
        cases h
        exact ⟨rfl, rfl⟩
      · rw [if_neg hemp] at h
        cases h
  · rintro ⟨hm, rfl⟩
    unfold fetch_flight_data
    rw [hm]
    rfl

/-! ## Benign inputs: present nodes have the expected type

The defensive `.get(…, default)` chains tolerate *missing* keys.  `benign*`
captures exactly that scenario: along each fixed descent path, every node
that is present is a JSON object (and the arrivals data, when present, is a
list; a truthy country name is hashable).  Keys may be missing at any
depth. -/

theorem chainVal_stepsObj (ks : List String) :
    ∀ j v, chainVal j ks = some v → stepsObj (.ok j) ks = .ok v := by
  induction ks with
  | nil =>
    intro j v h
    cases j <;> simp [chainVal] at h <;> subst h <;> rfl
  | cons k ks ih =>
    intro j v h
    cases j with
    | obj fields =>
      rw [show chainVal (.obj fields) (k :: ks)
            = chainVal ((lookupKey fields k).getD (.obj [])) ks from rfl] at h
      rw [show stepsObj (.ok (.obj fields)) (k :: ks)
            = stepsObj (.ok ((lookupKey fields k).getD (.obj []))) ks from rfl]
      exact ih _ v h
    | null | bool _ | num _ | str _ | arr _ => cases h

theorem benignFlight_name (f : Json) (hb : benignFlight f = true) :
    ∃ n, flightName f = .ok n ∧ (truthy n = true → hashable n = true) := by
  cases hc : chainVal f ["flight", "airport", "origin", "position", "country"] with
  | none => simp [benignFlight, hc] at hb
  | some v =>
    cases v with
    | obj g =>
      have hs := chainVal_stepsObj _ f _ hc
      refine ⟨(lookupKey g "name").getD .null, ?_, ?_⟩
      · have : flightName f
            = step (stepsObj (.ok f)
                ["flight", "airport", "origin", "position", "country"]) "name" .null := rfl
        rw [this, hs]
        rfl
      · intro ht
        simp [benignFlight, hc, ht] at hb
        exact hb
    | null | bool _ | num _ | str _ | arr _ => simp [benignFlight, hc] at hb

theorem benignItem_flights (item : Json) (hb : benignItem item = true) :
    ∃ fs, itemFlights item = .ok fs ∧ fs.all benignFlight = true := by
  cases hc : chainVal item ["airport", "pluginData", "schedule", "arrivals"] with
  | none => simp [benignItem, hc] at hb
  | some v =>
    cases v with
    | obj e =>
      have hs := chainVal_stepsObj _ item _ hc
      cases hd : (lookupKey e "data").getD (.arr []) with
      | arr fs =>
        refine ⟨fs, ?_, by simpa [benignItem, hc, hd] using hb⟩
        have hg : getFlightsData item
            = step (stepsObj (.ok item)
                ["airport", "pluginData", "schedule", "arrivals"]) "data" (.arr []) := rfl
        unfold itemFlights
        rw [hg, hs]
        rw [show step (.ok (.obj e)) "data" (.arr [])
              = .ok ((lookupKey e "data").getD (.arr [])) from rfl]
        rw [hd]
        rfl
      | null | bool _ | num _ | str _ | obj _ => simp [benignItem, hc, hd] at hb
    | null | bool _ | num _ | str _ | arr _ => simp [benignItem, hc] at hb

theorem benign_processFlight (f : Json) (hb : benignFlight f = true)
    (m : List (Json × Nat)) : ∃ m', processFlight m f = .ok m' := by
  obtain ⟨n, hf, hth⟩ := benignFlight_name f hb
  by_cases ht : truthy n = true
  · refine ⟨bump m n, ?_⟩
    unfold processFlight
    simp [hf, ht, hth ht]
  · refine ⟨m, ?_⟩
    unfold processFlight
    simp [hf, ht]

theorem benign_foldl_flights (fs : List Json) :
    ∀ m, fs.all benignFlight = true →
      ∃ m', fs.foldlM processFlight m = .ok m' := by
  induction fs with
  | nil => intro m _; exact ⟨m, rfl⟩
  | cons f fs ih =>
    intro m hall
    rw [List.all_cons, Bool.and_eq_true] at hall
    obtain ⟨m1, hm1⟩ := benign_processFlight f hall.1 m
    obtain ⟨m2, hm2⟩ := ih m1 hall.2
    refine ⟨m2, ?_⟩
    rw [foldlM_cons, hm1]
    exact hm2

theorem benign_processItem (item : Json) (hb : benignItem item = true)
    (m : List (Json × Nat)) : ∃ m', processItem m item = .ok m' := by
  obtain ⟨fs, hfs, hall⟩ := benignItem_flights item hb
  unfold itemFlights at hfs
  cases hg : getFlightsData item with
  | error e => rw [hg] at hfs; cases hfs
  | ok fd =>
    rw [hg] at hfs
    have hp : pyIter fd = .ok fs := hfs
    unfold processItem
    simp only [hg, hp]
    exact benign_foldl_flights fs m hall

theorem benign_foldl_items (items : List Json) :
    ∀ m, items.all benignItem = true →
      ∃ m', items.foldlM processItem m = .ok m' := by
  induction items with
  | nil => intro m _; exact ⟨m, rfl⟩
  | cons it its ih =>
    intro m hall
    rw [List.all_cons, Bool.and_eq_true] at hall
    obtain ⟨m1, hm1⟩ := benign_processItem it hall.1 m
    obtain ⟨m2, hm2⟩ := ih m1 hall.2
    refine ⟨m2, ?_⟩
    rw [foldlM_cons, hm1]
    exact hm2

theorem benign_countCountries (data : Json) (hb : benignData data = true) :
    ∃ m, countCountries data = .ok m := by
  cases data with
  | arr items => exact benign_foldl_items items [] (by simpa [benignData] using hb)
  | null | bool _ | num _ | str _ | obj _ => exact ⟨[], rfl⟩

/-! ## Cache lemmas -/

namespace TTLCache

variable {α : Type}

theorem find_filter_append (es : List (String × α × Nat)) (k : String)
    (x : String × α × Nat) (hx : x.1 = k) :
    (es.filter (fun e => e.1 != k) ++ [x]).find? (fun e => e.1 == k) = some x := by
  induction es with
  | nil => simp [List.find?, hx]
  | cons e es ih =>
    by_cases hek : e.1 = k
    · simp only [List.filter_cons, bne, hek, beq_self_eq_true, Bool.not_true,
        Bool.false_eq_true, if_false]
      exact ih
    · have : (e.1 != k) = true := by simpa using hek
      simp only [List.filter_cons, this, if_true, List.cons_append, List.find?_cons]
      have : (e.1 == k) = false := by simpa using hek
      rw [this]
      exact ih

theorem evictLoop_subset (maxsize : Nat) (es : List (String × α × Nat)) :
    ∀ e ∈ evictLoop maxsize es, e ∈ es := by
  induction es with
  | nil =>
    intro e he
    simpa [evictLoop] using he
  | cons e' es' ih =>
    intro e he
    rw [evictLoop] at he
    by_cases hcond : maxsize < es'.length + 2
    · rw [if_pos hcond] at he
      exact List.mem_cons_of_mem e' (ih e he)
    · rw [if_neg hcond] at he
      exact he

theorem setItem_entries (s : TTLCache α) (now : Nat) (k : String) (v : α) :
    ∃ E, (s.setItem now k v).entries = E ++ [(k, v, now + s.ttl)] ∧
      (∀ e ∈ E, e.1 ≠ k) ∧
      (∀ e ∈ E, e ∈ s.entries ∧ now < e.2.2) := by
  unfold setItem
  refine ⟨_, rfl, ?_, ?_⟩
  · intro e he
    have := List.of_mem_filter he
    simpa using this
  · intro e he
    have hmem := List.mem_of_mem_filter he
    have hmem' : e ∈ expire now s.entries := by
      by_cases hc : (expire now s.entries).any (fun e => e.1 == k) = true
      · rw [if_pos hc] at hmem
        exact hmem
      · rw [if_neg hc] at hmem
        exact evictLoop_subset s.maxsize _ e hmem
    have hsplit := List.mem_filter.mp hmem'
    exact ⟨hsplit.1, by simpa using hsplit.2⟩

theorem getItem_of_find (s : TTLCache α) (now : Nat) (k : String)
    (x : String × α × Nat)
    (hf : s.entries.find? (fun e => e.1 == k) = some x) (hl : now < x.2.2) :
    (s.getItem now k).1 = some x.2.1 := by
  unfold getItem
  rw [hf]
  simp [hl]

theorem getItem_miss_of_find (s : TTLCache α) (now : Nat) (k : String)
    (x : String × α × Nat)
    (hf : s.entries.find? (fun e => e.1 == k) = some x) (hl : ¬ now < x.2.2) :
    (s.getItem now k).1 = none := by
  unfold getItem
  rw [hf]
  simp [hl]

/-- `get` after `put` within the TTL window hits with the stored value. -/
theorem getItem_after_setItem_hit (s : TTLCache α) (now1 now2 : Nat)
    (k : String) (v : α) (h : now2 < now1 + s.ttl) :
    ((s.setItem now1 k v).getItem now2 k).1 = some v := by
  obtain ⟨E, hE, hk, _⟩ := setItem_entries s now1 k v
  have hf : (s.setItem now1 k v).entries.find? (fun e => e.1 == k)
      = some (k, v, now1 + s.ttl) := by
    rw [hE]
    rw [show E ++ [(k, v, now1 + s.ttl)]
          = E.filter (fun e => e.1 != k) ++ [(k, v, now1 + s.ttl)] by
      rw [List.filter_eq_self.mpr]
      intro e he
      simpa using hk e he]
    exact find_filter_append E k (k, v, now1 + s.ttl) rfl
  exact getItem_of_find _ now2 k _ hf h

/-- `get` after `put` at or past the TTL misses, and the key stays dead. -/
theorem getItem_after_setItem_expired (s : TTLCache α) (now1 now2 : Nat)
    (k : String) (v : α) (h : now1 + s.ttl ≤ now2) :
    ((s.setItem now1 k v).getItem now2 k).1 = none ∧
      (s.setItem now1 k v).containsKey now2 k = false := by
  obtain ⟨E, hE, hk, _⟩ := setItem_entries s now1 k v
  have hf : (s.setItem now1 k v).entries.find? (fun e => e.1 == k)
      = some (k, v, now1 + s.ttl) := by
    rw [hE]
    rw [show E ++ [(k, v, now1 + s.ttl)]
          = E.filter (fun e => e.1 != k) ++ [(k, v, now1 + s.ttl)] by
      rw [List.filter_eq_self.mpr]
      intro e he
      simpa using hk e he]
    exact find_filter_append E k (k, v, now1 + s.ttl) rfl
  constructor
  · refine getItem_miss_of_find _ now2 k _ hf ?_
    show ¬ now2 < now1 + s.ttl
    omega
  · unfold containsKey
    rw [hf]
    have hlt : ¬ now2 < now1 + s.ttl := by omega
    simp [hlt]

/-- After the expiry instant, any later `put` of a different key sweeps the
expired entry out of the store entirely. -/
theorem setItem_sweeps_expired (s : TTLCache α) (now1 now3 : Nat)
    (k k2 : String) (v v2 : α) (hk2 : k2 ≠ k) (h : now1 + s.ttl ≤ now3) :
    ∀ e ∈ ((s.setItem now1 k v).setItem now3 k2 v2).entries, e.1 ≠ k := by
  intro e he
  obtain ⟨E2, hE2, hk2', hmem2⟩ := setItem_entries (s.setItem now1 k v) now3 k2 v2
  rw [hE2] at he
  rcases List.mem_append.mp he with h2 | h2
  · obtain ⟨hmem, hfresh⟩ := hmem2 e h2
    obtain ⟨E, hE, hkE, _⟩ := setItem_entries s now1 k v
    rw [hE] at hmem
    rcases List.mem_append.mp hmem with h3 | h3
    · exact hkE e h3
    · rw [List.mem_singleton] at h3
      subst h3
      simp at hfresh
      omega
  · rw [List.mem_singleton] at h2
    subst h2
    exact hk2

/-- After a `put`, the key's link is present with the refreshed expiry. -/
theorem setItem_find (s : TTLCache α) (now : Nat) (k : String) (v : α) :
    (s.setItem now k v).entries.find? (fun e => e.1 == k)
      = some (k, v, now + s.ttl) := by
  obtain ⟨E, hE, hk, _⟩ := setItem_entries s now k v
  rw [hE]
  rw [show E ++ [(k, v, now + s.ttl)]
        = E.filter (fun e => e.1 != k) ++ [(k, v, now + s.ttl)] by
    rw [List.filter_eq_self.mpr]
    intro e he
    simpa using hk e he]
  exact find_filter_append E k (k, v, now + s.ttl) rfl

/-- Removing a key that occurs exactly once shortens the list by one. -/
theorem filter_ne_length (es : List (String × α × Nat)) (k : String)
    (hnd : es.Pairwise (fun a b => a.1 ≠ b.1)) (x : String × α × Nat)
    (hx : x ∈ es) (hxk : x.1 = k) :
    (es.filter (fun e => e.1 != k)).length + 1 = es.length := by
  induction es with
  | nil => cases hx
  | cons e es ih =>
    rw [List.pairwise_cons] at hnd
    by_cases hek : e.1 = k
    · have hall : ∀ b ∈ es, (b.1 != k) = true := by
        intro b hb
        have hne : e.1 ≠ b.1 := hnd.1 b hb
        rw [hek] at hne
        simpa using fun hbk => hne (by rw [hbk])
      rw [List.filter_cons, show (e.1 != k) = false by simpa using hek]
      simp only [Bool.false_eq_true, if_false]
      rw [List.filter_eq_self.mpr hall]
      simp
    · rcases List.mem_cons.mp hx with rfl | hxm
      · exact absurd hxk hek
      · rw [List.filter_cons, show (e.1 != k) = true by simpa using hek]
        simp only [if_true, List.length_cons]
        have := ih hnd.2 hxm
        omega

theorem evictLoop_no_evict (maxsize : Nat) (es : List (String × α × Nat))
    (h : es.length + 1 ≤ maxsize) : evictLoop maxsize es = es := by
  cases es with
  | nil => rfl
  | cons e es' =>
    rw [evictLoop, if_neg]
    simp at h
    omega

theorem evictLoop_at_capacity (maxsize : Nat) (es : List (String × α × Nat))
    (hlen : es.length = maxsize) (hmax : 1 ≤ maxsize) :
    evictLoop maxsize es = es.tail := by
  cases es with
  | nil => simp at hlen; omega
  | cons e es' =>
    rw [evictLoop, if_pos (by simp at hlen; omega)]
    exact evictLoop_no_evict maxsize es' (by simp at hlen; omega)

end TTLCache

/-! ## Orchestrator helpers -/

theorem containsKey_of_getItem_some {α : Type} (s : TTLCache α) (now : Nat)
    (k : String) (v : α) (c2 : TTLCache α) (h : s.getItem now k = (some v, c2)) :
    s.containsKey now k = true := by
  unfold TTLCache.getItem at h
  cases hf : s.entries.find? (fun e => e.1 == k) with
  | none =>
    rw [hf] at h
    simp at h
  | some e =>
    rw [hf] at h
    unfold TTLCache.containsKey
    rw [hf]
    by_cases hl : now < e.2.2
    · simpa using hl
    · simp [hl] at h

theorem getItem_some_pair {α : Type} (s : TTLCache α) (now : Nat) (k : String)
    (x : String × α × Nat)
    (hf : s.entries.find? (fun e => e.1 == k) = some x) (hl : now < x.2.2) :
    ∃ c2, s.getItem now k = (some x.2.1, c2) := by
  refine ⟨⟨s.maxsize, s.ttl, s.entries.filter (fun e2 => e2.1 != k) ++ [x]⟩, ?_⟩
  unfold TTLCache.getItem
  rw [hf]
  simp [hl]

theorem containsKey_of_find {α : Type} (s : TTLCache α) (now : Nat) (k : String)
    (x : String × α × Nat)
    (hf : s.entries.find? (fun e => e.1 == k) = some x) (hl : now < x.2.2) :
    s.containsKey now k = true := by
  unfold TTLCache.containsKey
  rw [hf]
  simpa using hl

/-- A lookup that returned a ranked result while issuing one upstream call
must have validated its input, missed the cache, fetched successfully, and
written exactly its result through `setItem`. -/
theorem get_flights_ok_write (s : String) (cache : TTLCache (List (Json × Nat)))
    (t1 : Nat) (u : FetchOutcome) (r : List (Json × Nat))
    (cache1 : TTLCache (List (Json × Nat)))
    (h : get_flights s cache t1 u = (.flights r, cache1, 1)) :
    (s.length != 3) = false ∧
      cache1 = cache.setItem t1 ("flights_" ++ pyUpper s) r := by
  unfold get_flights at h
  by_cases hlen : (s.length != 3) = true
  · rw [if_pos hlen] at h
    exact OrchResult.noConfusion (congrArg Prod.fst h)
  · rw [if_neg hlen] at h
    refine ⟨eq_false_of_ne_true hlen, ?_⟩
    by_cases hcont : cache.containsKey t1 ("flights_" ++ pyUpper s) = true
    · rw [if_pos hcont] at h
      cases hgi : cache.getItem t1 ("flights_" ++ pyUpper s) with
      | mk opt c' =>
        rw [hgi] at h
        cases opt with
        | some v =>
          exact absurd (show (0 : Nat) = 1 from congrArg (fun t => t.2.2) h) (by decide)
        | none =>
          exact absurd (show (0 : Nat) = 1 from congrArg (fun t => t.2.2) h) (by decide)
    · rw [if_neg hcont] at h
      cases u with
      | timeout => exact OrchResult.noConfusion (congrArg Prod.fst h)
      | clientError => exact OrchResult.noConfusion (congrArg Prod.fst h)
      | malformed => exact OrchResult.noConfusion (congrArg Prod.fst h)
      | ok data =>
        cases hf : fetch_flight_data data (pyUpper s) with
        | ok r' =>
          simp only [hf] at h
          have hres : OrchResult.flights r' = .flights r := congrArg Prod.fst h
          cases hres
          exact (congrArg (fun t => t.2.1) h).symm
        | error e =>
          simp only [hf] at h
          exact OrchResult.noConfusion (congrArg Prod.fst h)

/-! ## Claim theorems -/

/-- Claim C1: whenever the aggregation succeeds, the count recorded for a
country equals the number of arrival records whose nested
`flight → airport → origin → position → country → name` path resolves to
that truthy (present and non-empty) country value, and the total of all
counts is at most the total number of arrival records. -/
theorem counts_match_resolved_records :
    ∀ (data : Json) (code : String) (r : List (Json × Nat)),
      fetch_flight_data data code = .ok r →
      ∃ recs, allRecords data = .ok recs ∧
        (∀ p ∈ r, p.2 = recs.countP (fun f => resolvesTo f p.1)) ∧
        (r.map Prod.snd).sum ≤ recs.length := by
  intro data code r h
  obtain ⟨ns, hns, hne, hr⟩ := fetch_ok_inv data code r h
  obtain ⟨recs, hrecs, hcount, hlen, hgood⟩ := allContribs_ok data ns hns
  have hperm := pySortDesc_perm (buildCounts ns)
  have hgoodkeys : goodKeys ((buildCounts ns).map Prod.fst) :=
    goodKeys_foldl_bump ns [] ⟨List.Pairwise.nil, by simp⟩
      (fun n hn => (hgood n hn).2)
  refine ⟨recs, hrecs, ?_, ?_⟩
  · intro p hp
    have hpm : p ∈ buildCounts ns := hperm.mem_iff.mp (hr ▸ hp)
    have h1 : p.2 = keyCount (buildCounts ns) p.1 :=
      mem_keyCount (buildCounts ns) p hpm hgoodkeys
    have h2 : keyCount (buildCounts ns) p.1 = ns.countP (fun n => pyEq n p.1) := by
      have h0 := keyCount_foldl_bump ns [] p.1
      simpa [buildCounts, keyCount_nil] using h0
    rw [h1, h2, hcount p.1]
  · have hsum : (r.map Prod.snd).sum = sumCounts (buildCounts ns) := by
      rw [hr]
      exact List.Perm.sum_eq (hperm.map Prod.snd)
    have hsc : sumCounts (buildCounts ns) = ns.length := by
      have h0 := sumCounts_foldl_bump ns []
      simpa [buildCounts, sumCounts] using h0
    rw [hsum, hsc]
    exact hlen

theorem counts_match_resolved_records_witness :
    ∃ recs, allRecords sampleData = .ok recs ∧
      (∀ p ∈ ([(Json.str "France", 2), (Json.str "Spain", 1)] : List (Json × Nat)),
        p.2 = recs.countP (fun f => resolvesTo f p.1)) ∧
      ((([(Json.str "France", 2), (Json.str "Spain", 1)] : List (Json × Nat)).map
          Prod.snd).sum ≤ recs.length) :=
  counts_match_resolved_records sampleData "CDG" _ rfl

/-- Claim C2: a successful aggregation result is sorted by count in
descending order; restricted to any fixed count value it is exactly the
corresponding slice of the insertion-ordered count map (stability), whose
key order is the order in which countries were first encountered. -/
theorem ranked_sorted_and_stable :
    ∀ (data : Json) (code : String) (r : List (Json × Nat)),
      fetch_flight_data data code = .ok r →
      r.Pairwise (fun a b => b.2 ≤ a.2) ∧
      ∃ ns, allContribs data = .ok ns ∧
        (∀ c : Nat, r.filter (fun p => p.2 == c)
            = (buildCounts ns).filter (fun p => p.2 == c)) ∧
        (buildCounts ns).map Prod.fst = firstSeen ns := by
  intro data code r h
  obtain ⟨ns, hns, hne, hr⟩ := fetch_ok_inv data code r h
  subst hr
  exact ⟨pySortDesc_sorted _, ns, hns,
    fun c => pySortDesc_filter (buildCounts ns) c, buildCounts_fst ns⟩

theorem ranked_sorted_and_stable_witness :
    ([(Json.str "France", 2), (Json.str "Spain", 1)] : List (Json × Nat)).Pairwise
        (fun a b => b.2 ≤ a.2) ∧
    ∃ ns, allContribs sampleData = .ok ns ∧
      (∀ c : Nat, ([(Json.str "France", 2), (Json.str "Spain", 1)] :
            List (Json × Nat)).filter (fun p => p.2 == c)
          = (buildCounts ns).filter (fun p => p.2 == c)) ∧
      (buildCounts ns).map Prod.fst = firstSeen ns :=
  ranked_sorted_and_stable sampleData "CDG" _ rfl

/-- Claim C10: a successful aggregation result is non-empty and every
count in it is at least 1. -/
theorem success_counts_positive :
    ∀ (data : Json) (code : String) (r : List (Json × Nat)),
      fetch_flight_data data code = .ok r →
      r ≠ [] ∧ ∀ p ∈ r, 1 ≤ p.2 := by
  intro data code r h
  obtain ⟨ns, hns, hne, hr⟩ := fetch_ok_inv data code r h
  subst hr
  constructor
  · intro h0
    have hlen := (pySortDesc_perm (buildCounts ns)).length_eq
    rw [h0] at hlen
    have hbc : buildCounts ns = [] := List.eq_nil_of_length_eq_zero hlen.symm
    exact hne (buildCounts_eq_nil ns hbc)
  · intro p hp
    have hpm : p ∈ buildCounts ns := (pySortDesc_perm _).mem_iff.mp hp
    exact foldl_bump_pos ns [] (by simp) p hpm

theorem success_counts_positive_witness :
    ([(Json.str "France", 2), (Json.str "Spain", 1)] : List (Json × Nat)) ≠ [] ∧
    ∀ p ∈ ([(Json.str "France", 2), (Json.str "Spain", 1)] : List (Json × Nat)),
      1 ≤ p.2 :=
  success_counts_positive sampleData "CDG" _ rfl

/-- Claim C3 counterexample: a *present but wrong-typed* node does raise.
The element `{"airport": null}` makes `item.get('airport', {})` return
`None`, and the next `.get` raises `AttributeError`; the aggregation fails
instead of skipping the element. -/
theorem wrong_typed_node_raises :
    fetch_flight_data (Json.arr [Json.obj [("airport", Json.null)]]) "LAX"
      = .error .attributeError := rfl

/-- Claim C3, amended: *missing* nodes at any step never raise — on any
input whose present descent nodes all have the expected type (`benignData`),
the aggregation either succeeds or fails with `NoDataFound`, never with a
traversal error.  (Wrong-typed present nodes do raise, see the
counterexample.) -/
theorem missing_nodes_never_raise :
    ∀ (data : Json) (code : String), benignData data = true →
      (∃ r, fetch_flight_data data code = .ok r) ∨
        fetch_flight_data data code = .error (.noDataFound code) := by
  intro data code hb
  obtain ⟨m, hm⟩ := benign_countCountries data hb
  unfold fetch_flight_data
  by_cases hemp : m.isEmpty = true
  · right
    simp only [hm, if_pos hemp]
  · left
    exact ⟨pySortDesc m, by simp only [hm, if_neg hemp]⟩

theorem missing_nodes_never_raise_witness :
    (∃ r, fetch_flight_data
        (Json.arr [Json.obj [("airport", Json.obj [])], Json.obj []]) "SFO" = .ok r) ∨
      fetch_flight_data
          (Json.arr [Json.obj [("airport", Json.obj [])], Json.obj []]) "SFO"
        = .error (.noDataFound "SFO") :=
  missing_nodes_never_raise (Json.arr [Json.obj [("airport", Json.obj [])], Json.obj []])
    "SFO" rfl

/-- Claim C4 counterexample: the code validates only `len(airport_code) != 3`.
The input `"A1C"` is not three *alphabetic* characters, yet it passes
validation and reaches the upstream call (one call is issued; the reported
error is the upstream timeout, not `InvalidAirportCode`). -/
theorem nonletter_code_not_rejected :
    get_flights "A1C" ⟨2, 10, []⟩ 0 .timeout = (.err .timeoutErr, ⟨2, 10, []⟩, 1) := rfl

/-- Claim C4, amended: every input whose raw length differs from 3 is
rejected with the invalid-code error before the cache or the network is
touched (cache returned unchanged, zero upstream calls).  No trimming and
no alphabetic check is performed.  In particular `"JF"` is rejected. -/
theorem length_check_rejects :
    ∀ (s : String) (cache : TTLCache (List (Json × Nat))) (now : Nat)
      (u : FetchOutcome), s.length ≠ 3 →
      get_flights s cache now u = (.err .invalidCode, cache, 0) := by
  intro s cache now u h
  unfold get_flights
  rw [if_pos (by simpa using h)]

theorem length_check_rejects_witness :
    get_flights "JF" ⟨2, 10, []⟩ 0 .timeout = (.err .invalidCode, ⟨2, 10, []⟩, 0) :=
  length_check_rejects "JF" ⟨2, 10, []⟩ 0 .timeout (by decide)

/-- Claim C5 counterexample: an input with zero resolvable country names
need not fail with `NoDataFound` — a wrong-typed element makes the
traversal raise `AttributeError` first. -/
theorem no_name_records_can_raise :
    fetch_flight_data (Json.arr [Json.num 3]) "JFK" = .error .attributeError := rfl

/-- Claim C5, amended: a non-list response is treated as zero records and
fails with `NoDataFound` carrying the airport code; and, in general, the
aggregation fails with `NoDataFound` exactly when the counting loop
completes with an empty count map (a traversal error pre-empts it). -/
theorem noDataFound_characterization :
    ∀ (data : Json) (code : String),
      ((∀ items, data ≠ .arr items) →
          fetch_flight_data data code = .error (.noDataFound code)) ∧
      (∀ c, fetch_flight_data data code = .error (.noDataFound c) ↔
          countCountries data = .ok [] ∧ c = code) := by
  intro data code
  constructor
  · intro hna
    cases data with
    | arr items => exact absurd rfl (hna items)
    | null | bool _ | num _ | str _ | obj _ => rfl
  · intro c
    exact fetch_noData_iff data code c

theorem noDataFound_characterization_witness :
    fetch_flight_data (Json.str "oops") "AMS" = .error (.noDataFound "AMS") ∧
    (fetch_flight_data (Json.str "oops") "AMS" = .error (.noDataFound "AMS") ↔
        countCountries (Json.str "oops") = .ok [] ∧ "AMS" = "AMS") :=
  ⟨(noDataFound_characterization (Json.str "oops") "AMS").1
      (fun _ h => Json.noConfusion h),
    (noDataFound_characterization (Json.str "oops") "AMS").2 "AMS"⟩

/-- Claim C6: a `get` right after `put(key, value)` hits with exactly that
value while the entry's age is strictly below the TTL (no intervening
operation, hence no capacity eviction); once the age reaches the TTL the
entry behaves as evicted: `get` misses, `contains` is false, and any later
`put` of another key sweeps it out of the store (`cachetools` removes the
link lazily at the next mutation rather than inside the failed `get`). -/
theorem cache_ttl_semantics :
    (∀ (α : Type) (s : TTLCache α) (now1 now2 : Nat) (k : String) (v : α),
      1 ≤ s.maxsize → now2 < now1 + s.ttl →
      ((s.setItem now1 k v).getItem now2 k).1 = some v) ∧
    (∀ (α : Type) (s : TTLCache α) (now1 now2 : Nat) (k : String) (v : α),
      now1 + s.ttl ≤ now2 →
      ((s.setItem now1 k v).getItem now2 k).1 = none ∧
      (s.setItem now1 k v).containsKey now2 k = false ∧
      (∀ (k2 : String) (v2 : α) (now3 : Nat), k2 ≠ k → now1 + s.ttl ≤ now3 →
        ∀ e ∈ ((s.setItem now1 k v).setItem now3 k2 v2).entries, e.1 ≠ k)) := by
  constructor
  · intro α s now1 now2 k v _ h
    exact TTLCache.getItem_after_setItem_hit s now1 now2 k v h
  · intro α s now1 now2 k v h
    obtain ⟨h1, h2⟩ := TTLCache.getItem_after_setItem_expired s now1 now2 k v h
    exact ⟨h1, h2, fun k2 v2 now3 hk2 h3 =>
      TTLCache.setItem_sweeps_expired s now1 now3 k k2 v v2 hk2 h3⟩

theorem cache_ttl_semantics_witness :
    (((⟨1, 10, []⟩ : TTLCache Nat).setItem 0 "K" 7).getItem 5 "K").1 = some 7 ∧
    (((⟨1, 10, []⟩ : TTLCache Nat).setItem 0 "K" 7).getItem 10 "K").1 = none ∧
    ((⟨1, 10, []⟩ : TTLCache Nat).setItem 0 "K" 7).containsKey 10 "K" = false :=
  ⟨cache_ttl_semantics.1 Nat ⟨1, 10, []⟩ 0 5 "K" 7 (by decide) (by decide),
    (cache_ttl_semantics.2 Nat ⟨1, 10, []⟩ 0 10 "K" 7 (by decide)).1,
    (cache_ttl_semantics.2 Nat ⟨1, 10, []⟩ 0 10 "K" 7 (by decide)).2.1⟩

/-- Claim C7 counterexample: at capacity with an *expired* non-LRU entry,
a put of a new key does not evict the least-recently-used entry.  Built by
real operations: insert "A" (expires 10) and "B" (expires 15), read "A"
(LRU order becomes ["B", "A"]), then put "C" at time 12.  The expiry sweep
removes "A" (the most recently used!), and "B" — the least recently used
entry — survives, contradicting "evicts exactly the least-recently-used
existing entry and no other" (which predicts keys ["A", "C"]). -/
theorem lru_eviction_with_expired_entry :
    (((((⟨2, 10, []⟩ : TTLCache Nat).setItem 0 "A" 1).setItem 5 "B" 2).getItem
        6 "A").2.entries.map Prod.fst = ["B", "A"]) ∧
    (((((⟨2, 10, []⟩ : TTLCache Nat).setItem 0 "A" 1).setItem 5 "B" 2).getItem
        6 "A").2.entries.length = 2) ∧
    ((((((⟨2, 10, []⟩ : TTLCache Nat).setItem 0 "A" 1).setItem 5 "B" 2).getItem
        6 "A").2.setItem 12 "C" 3).entries.map Prod.fst = ["B", "C"]) := by
  decide

/-- Claim C7, amended: provided every entry is unexpired at put time, a put
of a new key into a cache holding exactly `maxsize` entries evicts exactly
the least-recently-used entry (the head of the LRU order) and no other,
while a put of an already-present key overwrites it, evicting nothing (the
entry count is unchanged).  With expired entries present the expiry sweep
runs first and the LRU entry may survive (see the counterexample). -/
theorem put_at_capacity_unexpired :
    ∀ (α : Type) (s : TTLCache α) (now : Nat) (k : String) (v : α),
      (∀ e ∈ s.entries, now < e.2.2) →
      s.entries.length = s.maxsize →
      1 ≤ s.maxsize →
      s.entries.Pairwise (fun a b => a.1 ≠ b.1) →
      ((∀ e ∈ s.entries, e.1 ≠ k) →
          (s.setItem now k v).entries = s.entries.tail ++ [(k, v, now + s.ttl)]) ∧
      ((∃ x ∈ s.entries, x.1 = k) →
          (s.setItem now k v).entries
              = s.entries.filter (fun e => e.1 != k) ++ [(k, v, now + s.ttl)] ∧
            (s.setItem now k v).entries.length = s.entries.length) := by
  intro α s now k v hfresh hlen hmax hnd
  have hexp : TTLCache.expire now s.entries = s.entries := by
    unfold TTLCache.expire
    rw [List.filter_eq_self]
    intro e he
    simpa using hfresh e he
  constructor
  · intro hnew
    have hany : (s.entries.any (fun e => e.1 == k)) = false := by
      rw [List.any_eq_false]
      intro e he
      simpa using hnew e he
    unfold TTLCache.setItem
    rw [hexp]
    simp only [hany, Bool.false_eq_true, if_false]
    rw [TTLCache.evictLoop_at_capacity s.maxsize s.entries hlen hmax]
    congr 1
    rw [List.filter_eq_self]
    intro e he
    have hmem : e ∈ s.entries := (List.tail_sublist s.entries).subset he
    simpa using hnew e hmem
  · rintro ⟨x, hx, hxk⟩
    have hany : (s.entries.any (fun e => e.1 == k)) = true :=
      List.any_eq_true.mpr ⟨x, hx, by simpa using hxk⟩
    unfold TTLCache.setItem
    rw [hexp]
    simp only [hany, if_true]
    refine ⟨trivial, ?_⟩
    rw [List.length_append]
    have hfl := TTLCache.filter_ne_length s.entries k hnd x hx hxk
    simp only [List.length_singleton]
    omega

theorem put_at_capacity_witness :
    ((⟨2, 10, [("A", 1, 20), ("B", 2, 25)]⟩ : TTLCache Nat).setItem 5 "C" 3).entries
        = [("B", 2, 25), ("C", 3, 15)] ∧
    ((⟨2, 10, [("A", 1, 20), ("B", 2, 25)]⟩ : TTLCache Nat).setItem 5 "A" 9).entries
        = [("B", 2, 25), ("A", 9, 15)] ∧
    ((⟨2, 10, [("A", 1, 20), ("B", 2, 25)]⟩ : TTLCache Nat).setItem 5 "A" 9).entries.length
        = 2 := by
  refine ⟨?_, ?_, ?_⟩
  · exact ((put_at_capacity_unexpired Nat ⟨2, 10, [("A", 1, 20), ("B", 2, 25)]⟩ 5 "C" 3
      (by decide) (by decide) (by decide) (by decide)).1 (by decide)).trans (by decide)
  · exact (((put_at_capacity_unexpired Nat ⟨2, 10, [("A", 1, 20), ("B", 2, 25)]⟩ 5 "A" 9
      (by decide) (by decide) (by decide) (by decide)).2
        ⟨("A", 1, 20), by decide, rfl⟩).1).trans (by decide)
  · exact (((put_at_capacity_unexpired Nat ⟨2, 10, [("A", 1, 20), ("B", 2, 25)]⟩ 5 "A" 9
      (by decide) (by decide) (by decide) (by decide)).2
        ⟨("A", 1, 20), by decide, rfl⟩).2).trans (by decide)

/-- Claim C8: whenever the fetch or the aggregation stage of a lookup fails
(timeout, upstream failure, malformed response, traversal error, or
`NoDataFound`), the orchestrator reports exactly that error, leaves the
cache state unchanged — no entry is written — and has issued one upstream
call. -/
theorem failed_lookup_propagates_uncached :
    ∀ (s : String) (cache : TTLCache (List (Json × Nat))) (now : Nat)
      (u : FetchOutcome) (e : OrchError),
      (s.length != 3) = false →
      cache.containsKey now ("flights_" ++ pyUpper s) = false →
      fetchFailure u (pyUpper s) = some e →
      get_flights s cache now u = (.err e, cache, 1) := by
  intro s cache now u e hlen hmiss hfail
  unfold get_flights
  rw [if_neg (by simp [hlen]), if_neg (by simp [hmiss])]
  cases u with
  | timeout =>
    unfold fetchFailure at hfail
    cases hfail
    rfl
  | clientError =>
    unfold fetchFailure at hfail
    cases hfail
    rfl
  | malformed =>
    unfold fetchFailure at hfail
    cases hfail
    rfl
  | ok data =>
    unfold fetchFailure at hfail
    cases hfd : fetch_flight_data data (pyUpper s) with
    | ok r =>
      simp only [hfd] at hfail
      exact Option.noConfusion hfail
    | error e' =>
      simp only [hfd, Option.some.injEq] at hfail
      subst hfail
      simp only [hfd]

theorem failed_lookup_propagates_witness :
    get_flights "LHR" ⟨2, 10, []⟩ 0 .timeout = (.err .timeoutErr, ⟨2, 10, []⟩, 1) :=
  failed_lookup_propagates_uncached "LHR" ⟨2, 10, []⟩ 0 .timeout .timeoutErr rfl rfl rfl

/-- Claim C9: a lookup whose normalized key is present and unexpired in the
cache returns the cached ranked result with zero upstream calls; and after
any lookup that fetched (one upstream call) and returned a ranked result,
a second lookup for the same airport code within the TTL window returns
the same result with zero upstream calls. -/
theorem cache_hit_no_upstream_call :
    (∀ (s : String) (cache : TTLCache (List (Json × Nat))) (now : Nat)
        (u : FetchOutcome) (v : List (Json × Nat))
        (cache2 : TTLCache (List (Json × Nat))),
        (s.length != 3) = false →
        cache.getItem now ("flights_" ++ pyUpper s) = (some v, cache2) →
        get_flights s cache now u = (.flights v, cache2, 0)) ∧
    (∀ (s : String) (cache : TTLCache (List (Json × Nat))) (t1 t2 : Nat)
        (u u2 : FetchOutcome) (r : List (Json × Nat))
        (cache1 : TTLCache (List (Json × Nat))),
        get_flights s cache t1 u = (.flights r, cache1, 1) →
        t2 < t1 + cache.ttl →
        (get_flights s cache1 t2 u2).1 = .flights r ∧
          (get_flights s cache1 t2 u2).2.2 = 0) := by
  constructor
  · intro s cache now u v cache2 hlen hget
    have hcont := containsKey_of_getItem_some cache now _ v cache2 hget
    unfold get_flights
    rw [if_neg (by simp [hlen]), if_pos hcont, hget]
  · intro s cache t1 t2 u u2 r cache1 h1 ht
    obtain ⟨hlen, hc1⟩ := get_flights_ok_write s cache t1 u r cache1 h1
    subst hc1
    have hfind := TTLCache.setItem_find cache t1 ("flights_" ++ pyUpper s) r
    have hcont2 : (cache.setItem t1 ("flights_" ++ pyUpper s) r).containsKey t2
        ("flights_" ++ pyUpper s) = true :=
      containsKey_of_find _ t2 _ _ hfind ht
    obtain ⟨c2, hgi⟩ := getItem_some_pair _ t2 _ _ hfind ht
    constructor
    · show (get_flights s _ t2 u2).1 = _
      unfold get_flights
      rw [if_neg (by simp [hlen]), if_pos hcont2, hgi]
    · show (get_flights s _ t2 u2).2.2 = _
      unfold get_flights
      rw [if_neg (by simp [hlen]), if_pos hcont2, hgi]

theorem cache_hit_no_upstream_call_witness :
    get_flights "CDG"
        (⟨2, 10, [("flights_CDG", [(Json.str "France", 2), (Json.str "Spain", 1)], 10)]⟩ :
          TTLCache (List (Json × Nat))) 5 .timeout
      = (.flights [(Json.str "France", 2), (Json.str "Spain", 1)],
          ⟨2, 10, [("flights_CDG", [(Json.str "France", 2), (Json.str "Spain", 1)], 10)]⟩,
          0) ∧
    ((get_flights "CDG"
        (⟨2, 10, [("flights_CDG", [(Json.str "France", 2), (Json.str "Spain", 1)], 10)]⟩ :
          TTLCache (List (Json × Nat))) 5 .timeout).1
      = .flights [(Json.str "France", 2), (Json.str "Spain", 1)] ∧
      (get_flights "CDG"
        (⟨2, 10, [("flights_CDG", [(Json.str "France", 2), (Json.str "Spain", 1)], 10)]⟩ :
          TTLCache (List (Json × Nat))) 5 .timeout).2.2 = 0) :=
  ⟨cache_hit_no_upstream_call.1 "CDG" ⟨2, 10, [("flights_CDG",
      [(Json.str "France", 2), (Json.str "Spain", 1)], 10)]⟩ 5 .timeout
      [(Json.str "France", 2), (Json.str "Spain", 1)]
      ⟨2, 10, [("flights_CDG", [(Json.str "France", 2), (Json.str "Spain", 1)], 10)]⟩
      rfl rfl,
    cache_hit_no_upstream_call.2 "CDG" ⟨2, 10, []⟩ 0 5 (.ok sampleData) .timeout
      [(Json.str "France", 2), (Json.str "Spain", 1)]
      ⟨2, 10, [("flights_CDG", [(Json.str "France", 2), (Json.str "Spain", 1)], 10)]⟩
      rfl (by decide)⟩

end FlightApi
